import Mathlib

/-!
Shallow embedding of the column-mapping / normalization / validation-rule
engine of `streamlit_app.py` (UPC Validator & Product Recommender).

Strings are modelled as `List Char` in the core definitions, with `String`
wrappers at the boundary.  Python floats produced by `float(...)` on the
regex capture groups are modelled as exact rationals (the groups are plain
decimal numerals).  All text handled by the claims is ASCII, so Python's
`str.lower` / `str.casefold` are both modelled by `Char.toLower` and
Python's whitespace set by the six ASCII whitespace characters.
-/

namespace AwardWizard

/-- ASCII whitespace, as stripped by Python `str.strip`. -/
def isWS (c : Char) : Bool :=
  c = ' ' || c = '\t' || c = '\n' || c = '\r' || c = '\x0b' || c = '\x0c'

/-- Python `str.strip` on a character list. -/
def stripL (l : List Char) : List Char :=
  ((l.dropWhile isWS).reverse.dropWhile isWS).reverse

/-- Python `str.lower` (ASCII). -/
def lowerL (l : List Char) : List Char :=
  l.map Char.toLower

/-- Initial-segment test: `leadsWith n h` holds when `n` is an initial segment of `h`. -/
def leadsWith : List Char → List Char → Bool
  | [], _ => true
  | _ :: _, [] => false
  | a :: as, b :: bs => a == b && leadsWith as bs

/-- Substring test modelling Python `n in h` on strings: it holds when
`n` occurs contiguously somewhere in the haystack `h`. -/
def occursIn : List Char → List Char → Bool
  | n, [] => n.isEmpty
  | n, b :: bs => leadsWith n (b :: bs) || occursIn n bs

/-- Python `s[-n:]`: the rightmost `n` characters. -/
def rightTakeL (n : Nat) (l : List Char) : List Char :=
  l.drop (l.length - n)

/-- Python `str.zfill w` on digit-only input (the sign case of `zfill`
cannot arise here: every value fed to it is all digits or empty). -/
def zfillL (w : Nat) (l : List Char) : List Char :=
  List.replicate (w - l.length) '0' ++ l

/-- The first maximal run of digit characters in the token, i.e. the
capture of `.str.extract(r"(\d+)")`; `none` when the token has no digit. -/
def firstDigitRunL : List Char → Option (List Char)
  | [] => none
  | c :: cs =>
    if c.isDigit then some ((c :: cs).takeWhile Char.isDigit)
    else firstDigitRunL cs

/-- One-token body of `_clean_barcode_series`: extract the first digit run,
keep the rightmost 14 digits, and turn a missing match into `""`. -/
def cleanBarcodeL (l : List Char) : List Char :=
  match firstDigitRunL l with
  | none => []
  | some r => rightTakeL 14 r

/-- String wrapper for `_clean_barcode_series` on one token. -/
def cleanBarcode (s : String) : String :=
  ⟨cleanBarcodeL s.data⟩

/-- The extra step of `normalize_ic` line 126:
`out["barcode"].str.zfill(12).str[-14:]` applied after cleaning. -/
def icCanonBarcodeL (l : List Char) : List Char :=
  rightTakeL 14 (zfillL 12 (cleanBarcodeL l))

/-- IC-mode canonical barcode of a raw token. -/
def icCanonBarcode (s : String) : String :=
  ⟨icCanonBarcodeL s.data⟩

/-- QA-mode canonical barcode of a raw token (`normalize_qa_and_split`
line 145 applies `_clean_barcode_series` with no zero-fill). -/
def qaCanonBarcode (s : String) : String :=
  cleanBarcode s

/-- The hygiene test `work["barcode"].str.match(r"^\d{8,14}$")` of
`normalize_qa_and_split` line 167: 8 to 14 characters, all digits. -/
def validBarcodeL (l : List Char) : Bool :=
  8 ≤ l.length && l.length ≤ 14 && l.all Char.isDigit

/-- String wrapper for the `^\d{8,14}$` hygiene test. -/
def validBarcode (s : String) : Bool :=
  validBarcodeL s.data

/-- Python `\w` (ASCII): letters, digits and underscore. -/
def isWordChar (c : Char) : Bool :=
  c.isAlphanum || c = '_'

/-- The word boundary `\b` placed after a word character: it holds when
the remaining text is empty or starts with a non-word character. -/
def atBoundary : List Char → Bool
  | [] => true
  | c :: _ => !isWordChar c

/-- The greedy `\s?` of the size patterns: at most one whitespace
character is consumed.  (Falling back to the empty alternative can never
help here, since the following literal is never a whitespace char.) -/
def dropOptWS : List Char → List Char
  | [] => []
  | c :: cs => if isWS c then cs else c :: cs

/-- The number part `(\d+(\.\d+)?)` matched at the start of the text:
returns the capture group and the remaining text.  `\d+` and the
optional fraction are taken maximally; shrinking them can never turn a
failure into a success because the abandoned character would be a digit
(or the dot), which the rest of the pattern cannot match. -/
def numToken (l : List Char) : Option (List Char × List Char) :=
  match l with
  | [] => none
  | c :: _ =>
    if c.isDigit then
      let ip := l.takeWhile Char.isDigit
      let r1 := l.dropWhile Char.isDigit
      match r1 with
      | '.' :: d :: ds =>
        if d.isDigit then
          some (ip ++ '.' :: (d :: ds).takeWhile Char.isDigit,
                (d :: ds).dropWhile Char.isDigit)
        else some (ip, r1)
      | _ => some (ip, r1)
    else none

/-- Match of `(\d+(\.\d+)?)\s?m[lL]\b` anchored at the start of the
text, returning the capture group. -/
def matchSuffixML (l : List Char) : Option (List Char) :=
  match numToken l with
  | none => none
  | some (g, rest) =>
    match dropOptWS rest with
    | 'm' :: c :: cs =>
      if (c = 'l' || c = 'L') && atBoundary cs then some g else none
    | _ => none

/-- Match of `(\d+(\.\d+)?)\s?[lL]\b` anchored at the start of the text,
returning the capture group. -/
def matchSuffixL (l : List Char) : Option (List Char) :=
  match numToken l with
  | none => none
  | some (g, rest) =>
    match dropOptWS rest with
    | c :: cs =>
      if (c = 'l' || c = 'L') && atBoundary cs then some g else none
    | _ => none

/-- Search for the millilitre pattern as `re.search` does: leftmost match wins, trying
every start position from the left. -/
def searchML : List Char → Option (List Char)
  | [] => none
  | c :: cs =>
    match matchSuffixML (c :: cs) with
    | some g => some g
    | none => searchML cs

/-- Search for the litre pattern. -/
def searchL : List Char → Option (List Char)
  | [] => none
  | c :: cs =>
    match matchSuffixL (c :: cs) with
    | some g => some g
    | none => searchL cs

/-- Value of a digit string. -/
def digitsVal (l : List Char) : Nat :=
  l.foldl (fun a c => 10 * a + (c.toNat - 48)) 0

/-- Python `float(...)` on a capture group of shape `\d+(\.\d+)?`,
modelled exactly as a rational.  Such a group always parses, so the
`try/except` around the conversion never fires. -/
def parseGroup (g : List Char) : ℚ :=
  let ip := g.takeWhile Char.isDigit
  let rest := g.dropWhile Char.isDigit
  match rest with
  | '.' :: f => (digitsVal ip : ℚ) + (digitsVal f : ℚ) / (10 : ℚ) ^ f.length
  | _ => (digitsVal ip : ℚ)

/-- The function `extract_size_ml`: prefer the millilitre match; else use the litre
match scaled by 1000; else `None`. -/
def extract_size_ml (s : String) : Option ℚ :=
  match searchML s.data with
  | some g => some (parseGroup g)
  | none =>
    match searchL s.data with
    | some g => some (parseGroup g * 1000)
    | none => none

/-- Default vague-term list `DEFAULT_UNCLEAR_TERMS` from the top of the app. -/
def DEFAULT_UNCLEAR_TERMS : List String :=
  ["item", "sample", "unknown", "misc", "product", "variety", "generic"]

/-- The rule `flag_description`: length below 10 means `'Too short'`; else any
configured term occurring in the lowercased description means
`'Unclear or Generic'`; else `None`.  (`pd.isna` is false on actual
strings, which is the only case arising after normalization.) -/
def flag_description (desc : String) (ilike_clauses : List String) : Option String :=
  if desc.data.length < 10 then some "Too short"
  else if ilike_clauses.any (fun t => occursIn t.data (lowerL desc.data)) then
    some "Unclear or Generic"
  else none

/-- The rule `flag_size` on the parsed size. -/
def flag_size (size_ml : Option ℚ) : Option String :=
  match size_ml with
  | none => some "No size found"
  | some q => if q < 750 then some "Too small" else none

/-- The canonical record shape `["barcode", "brand", "description"]`
produced by both normalizers. -/
structure CanonicalRecord where
  barcode : String
  brand : String
  description : String
deriving DecidableEq

/-- One row of a QA campaign file after header normalization, with the
columns the QA path reads (`upc`, `description`, `requirementname`, and
the optional `size`; when the file has no `size` column the field is
ignored, see `hasSizeCol`). -/
structure QARow where
  upc : String
  description : String
  requirementname : String
  size : String
deriving DecidableEq

/-- Strip then casefold: `.str.strip()` followed by `.str.casefold()` (ASCII). -/
def caseNormL (l : List Char) : List Char :=
  lowerL (stripL l)

/-- The awarding mask of `normalize_qa_and_split`: the stripped,
case-folded requirement name equals `"unlabeled requirement"`. -/
def isAwarding (r : QARow) : Bool :=
  caseNormL r.requirementname.data == "unlabeled requirement".data

/-- The canonical description built by `normalize_qa_and_split`: the
stripped description, with the stripped size value appended after
`" - "` unless size-appending is off, the file has no size column, the
size is empty, or the size already occurs case-insensitively inside the
description. -/
def qaDescription (append_size_to_desc hasSizeCol : Bool) (desc size : String) : String :=
  let d := stripL desc.data
  if append_size_to_desc && hasSizeCol then
    let s := stripL size.data
    if s.isEmpty || occursIn (lowerL s) (lowerL d) then ⟨d⟩
    else ⟨d ++ " - ".data ++ s⟩
  else ⟨d⟩

/-- The canonical record the QA path builds for one row: cleaned
barcode, empty brand, canonical description. -/
def canonQA (append_size_to_desc hasSizeCol : Bool) (r : QARow) : CanonicalRecord :=
  { barcode := qaCanonBarcode r.upc
    brand := ""
    description := qaDescription append_size_to_desc hasSizeCol r.description r.size }

/-- The rows selected by `work[awarding_mask]`. -/
def qaAwardingRows (rows : List QARow) : List QARow :=
  rows.filter isAwarding

/-- The rows selected by `work[~awarding_mask]`. -/
def qaAudienceRows (rows : List QARow) : List QARow :=
  rows.filter (fun r => !isAwarding r)

/-- The function `normalize_qa_and_split` restricted to its data content: the
awarding and audience partitions as canonical records. -/
def normalize_qa_and_split (append_size_to_desc hasSizeCol : Bool) (rows : List QARow) :
    List CanonicalRecord × List CanonicalRecord :=
  ((qaAwardingRows rows).map (canonQA append_size_to_desc hasSizeCol),
   (qaAudienceRows rows).map (canonQA append_size_to_desc hasSizeCol))

/-- Header normalization applied by `_normalize_cols`: strip (line 58),
then lowercase and strip again (line 59). -/
def normHeader (s : String) : String :=
  ⟨stripL (lowerL (stripL s.data))⟩

/-- Alias set `ALIAS_BARCODE` (a Python set; only membership is used). -/
def ALIAS_BARCODE : List String :=
  ["barcode", "bar_code", "upc", "upc12", "upc-12", "upc_a", "upc-a",
   "gtin", "gtin12", "gtin-12", "ean", "ean13", "barcode_num", "barcode number"]

/-- Alias set `ALIAS_BRAND`. -/
def ALIAS_BRAND : List String :=
  ["brand", "brand_name", "brand name", "mfrbrand", "mfr_brand"]

/-- Alias set `ALIAS_DESCRIPTION`. -/
def ALIAS_DESCRIPTION : List String :=
  ["description", "desc", "product", "product_name", "product name",
   "product_description", "product description", "item_description",
   "item description", "item name", "title"]

/-- The function `_auto_pick_column`: the first normalized header belonging to the
alias set, else `None`. -/
def auto_pick_column (norm_cols : List String) (alias_set : List String) : Option String :=
  norm_cols.find? (fun c => alias_set.contains c)

/-- Outcome of the automatic column resolution in `normalize_ic`
lines 99 to 105: the three picks, and whether the manual-mapping UI is
triggered (`if not picked_barcode or not picked_description`). -/
structure ICResolution where
  barcode_col : Option String
  brand_col : Option String
  description_col : Option String
  needs_manual : Bool
deriving DecidableEq

/-- Automatic column resolution of `normalize_ic`. -/
def resolve_ic_columns (headers : List String) : ICResolution :=
  let norm_cols := headers.map normHeader
  let pb := auto_pick_column norm_cols ALIAS_BARCODE
  let pbr := auto_pick_column norm_cols ALIAS_BRAND
  let pds := auto_pick_column norm_cols ALIAS_DESCRIPTION
  { barcode_col := pb
    brand_col := pbr
    description_col := pds
    needs_manual := pb.isNone || pds.isNone }

/-- De-duplication keeping the first occurrence, carrying the set of
values already seen. -/
def dedupFirstAux : List String → List String → List String
  | _, [] => []
  | seen, x :: xs =>
    if x ∈ seen then dedupFirstAux seen xs
    else x :: dedupFirstAux (x :: seen) xs

/-- Modelled from the spec: the catalog lookup forwarding stage is
absent from `src/streamlit_app.py` (no lookup call exists there).  The
spec describes the lookup input as "a finite, de-duplicated list of
normalized barcode strings", with empty canonical values treated as
invalid and excluded by the caller, and recommends first-occurrence-wins
de-duplication.  Input here is the list of cleaned canonical
barcodes of one batch. -/
def forward_to_lookup (barcodes : List String) : List String :=
  dedupFirstAux [] (barcodes.filter (fun b => !b.isEmpty))

/-! ### Helper lemmas on lists -/

lemma takeWhile_all {p : Char → Bool} :
    ∀ (l : List Char), (∀ c ∈ l, p c = true) → l.takeWhile p = l := by
  intro l h
  induction l with
  | nil => rfl
  | cons c cs ih =>
    rw [List.takeWhile_cons, if_pos (h c (by simp)), ih (fun d hd => h d (by simp [hd]))]

lemma dropWhile_all {p : Char → Bool} :
    ∀ (l : List Char), (∀ c ∈ l, p c = true) → l.dropWhile p = [] := by
  intro l h
  induction l with
  | nil => rfl
  | cons c cs ih =>
    rw [List.dropWhile_cons, if_pos (h c (by simp)), ih (fun d hd => h d (by simp [hd]))]

lemma takeWhile_append_all {p : Char → Bool} (l r : List Char)
    (h : ∀ c ∈ l, p c = true) : (l ++ r).takeWhile p = l ++ r.takeWhile p := by
  induction l with
  | nil => rfl
  | cons c cs ih =>
    rw [List.cons_append, List.takeWhile_cons, if_pos (h c (by simp)),
      ih (fun d hd => h d (by simp [hd])), List.cons_append]

lemma dropWhile_append_all {p : Char → Bool} (l r : List Char)
    (h : ∀ c ∈ l, p c = true) : (l ++ r).dropWhile p = r.dropWhile p := by
  induction l with
  | nil => rfl
  | cons c cs ih =>
    rw [List.cons_append, List.dropWhile_cons, if_pos (h c (by simp)),
      ih (fun d hd => h d (by simp [hd]))]

lemma dropWhile_of_takeWhile_nil {p : Char → Bool} (l : List Char)
    (h : l.takeWhile p = []) : l.dropWhile p = l := by
  cases l with
  | nil => rfl
  | cons c cs =>
    rw [List.takeWhile_cons] at h
    rw [List.dropWhile_cons]
    by_cases hc : p c = true
    · rw [if_pos hc] at h; simp at h
    · rw [if_neg hc]

/-! ### Shape lemmas for barcode cleaning -/

lemma firstDigitRunL_some (l r : List Char) (h : firstDigitRunL l = some r) :
    r ≠ [] ∧ ∀ c ∈ r, c.isDigit = true := by
  induction l with
  | nil => simp [firstDigitRunL] at h
  | cons c cs ih =>
    rw [firstDigitRunL] at h
    by_cases hc : c.isDigit = true
    · rw [if_pos hc] at h
      obtain rfl : (c :: cs).takeWhile Char.isDigit = r := by injection h
      constructor
      · rw [List.takeWhile_cons, if_pos hc]; simp
      · intro d hd; exact List.mem_takeWhile_imp hd
    · rw [if_neg hc] at h; exact ih h

lemma firstDigitRunL_isSome (l : List Char) (h : ∃ c ∈ l, c.isDigit = true) :
    ∃ r, firstDigitRunL l = some r := by
  induction l with
  | nil => simp at h
  | cons c cs ih =>
    rw [firstDigitRunL]
    by_cases hc : c.isDigit = true
    · rw [if_pos hc]; exact ⟨_, rfl⟩
    · rw [if_neg hc]
      apply ih
      obtain ⟨d, hd, hdig⟩ := h
      rcases List.mem_cons.mp hd with rfl | hmem
      · exact absurd hdig hc
      · exact ⟨d, hmem, hdig⟩

lemma firstDigitRunL_none (l : List Char) (h : ∀ c ∈ l, c.isDigit = false) :
    firstDigitRunL l = none := by
  induction l with
  | nil => rfl
  | cons c cs ih =>
    rw [firstDigitRunL, if_neg (by simp [h c (by simp)])]
    exact ih (fun d hd => h d (by simp [hd]))

lemma length_rightTakeL (n : Nat) (l : List Char) :
    (rightTakeL n l).length = min n l.length := by
  simp [rightTakeL]; omega

lemma rightTakeL_all {p : Char → Bool} (n : Nat) (l : List Char)
    (h : ∀ c ∈ l, p c = true) : ∀ c ∈ rightTakeL n l, p c = true :=
  fun c hc => h c ((List.drop_sublist _ _).subset hc)

lemma rightTakeL_eq_self (n : Nat) (l : List Char) (h : l.length ≤ n) :
    rightTakeL n l = l := by
  rw [rightTakeL, Nat.sub_eq_zero_of_le h, List.drop_zero]

lemma length_zfillL (w : Nat) (l : List Char) :
    (zfillL w l).length = max w l.length := by
  simp [zfillL]; omega

lemma zfillL_all {p : Char → Bool} (hz : p '0' = true) (w : Nat) (l : List Char)
    (h : ∀ c ∈ l, p c = true) : ∀ c ∈ zfillL w l, p c = true := by
  intro c hc
  rcases List.mem_append.mp hc with hrep | hmem
  · rw [List.eq_of_mem_replicate hrep]; exact hz
  · exact h c hmem

lemma zfillL_eq_self (w : Nat) (l : List Char) (h : w ≤ l.length) :
    zfillL w l = l := by
  rw [zfillL, Nat.sub_eq_zero_of_le h, List.replicate_zero, List.nil_append]

lemma cleanBarcodeL_shape (l : List Char) :
    (cleanBarcodeL l).length ≤ 14 ∧ ∀ c ∈ cleanBarcodeL l, c.isDigit = true := by
  rw [cleanBarcodeL]
  cases h : firstDigitRunL l with
  | none => simp
  | some r =>
    obtain ⟨-, hdig⟩ := firstDigitRunL_some l r h
    refine ⟨?_, rightTakeL_all 14 r hdig⟩
    rw [length_rightTakeL]; omega

lemma cleanBarcodeL_pos (l : List Char) (h : ∃ c ∈ l, c.isDigit = true) :
    1 ≤ (cleanBarcodeL l).length := by
  obtain ⟨r, hr⟩ := firstDigitRunL_isSome l h
  obtain ⟨hne, -⟩ := firstDigitRunL_some l r hr
  rw [cleanBarcodeL, hr, length_rightTakeL]
  have : 0 < r.length := List.length_pos.mpr hne
  omega

lemma icCanonBarcodeL_shape (l : List Char) :
    12 ≤ (icCanonBarcodeL l).length ∧ (icCanonBarcodeL l).length ≤ 14 ∧
      ∀ c ∈ icCanonBarcodeL l, c.isDigit = true := by
  obtain ⟨hle, hdig⟩ := cleanBarcodeL_shape l
  rw [icCanonBarcodeL]
  refine ⟨?_, ?_, rightTakeL_all 14 _ (zfillL_all (by decide) 12 _ hdig)⟩ <;>
    rw [length_rightTakeL, length_zfillL] <;> omega

lemma cleanBarcodeL_of_digits (l : List Char) (hne : l ≠ [])
    (hd : ∀ c ∈ l, c.isDigit = true) (hlen : l.length ≤ 14) :
    cleanBarcodeL l = l := by
  obtain ⟨c, cs, rfl⟩ : ∃ c cs, l = c :: cs := by
    cases l with
    | nil => exact absurd rfl hne
    | cons c cs => exact ⟨c, cs, rfl⟩
  rw [cleanBarcodeL, firstDigitRunL, if_pos (hd c (by simp)), takeWhile_all _ hd]
  show rightTakeL 14 (c :: cs) = c :: cs
  exact rightTakeL_eq_self _ _ hlen

lemma icCanonBarcodeL_of_canonical (l : List Char) (hd : ∀ c ∈ l, c.isDigit = true)
    (h12 : 12 ≤ l.length) (h14 : l.length ≤ 14) : icCanonBarcodeL l = l := by
  have hne : l ≠ [] := by
    intro heq; rw [heq] at h12; simp at h12
  rw [icCanonBarcodeL, cleanBarcodeL_of_digits l hne hd h14, zfillL_eq_self _ _ h12,
    rightTakeL_eq_self _ _ h14]

/-! ### Lemmas about the size-pattern matcher -/

lemma numToken_digits_append (ds rest : List Char) (hne : ds ≠ [])
    (hd : ∀ c ∈ ds, c.isDigit = true)
    (hhead : rest.takeWhile Char.isDigit = [])
    (hdot : rest.head? ≠ some '.') :
    numToken (ds ++ rest) = some (ds, rest) := by
  obtain ⟨c, cs, rfl⟩ : ∃ c cs, ds = c :: cs := by
    cases ds with
    | nil => exact absurd rfl hne
    | cons c cs => exact ⟨c, cs, rfl⟩
  have hc : c.isDigit = true := hd c (by simp)
  have hip : (c :: (cs ++ rest)).takeWhile Char.isDigit = c :: cs := by
    rw [← List.cons_append, takeWhile_append_all _ _ hd, hhead, List.append_nil]
  have hr1 : (c :: (cs ++ rest)).dropWhile Char.isDigit = rest := by
    rw [← List.cons_append, dropWhile_append_all _ _ hd, dropWhile_of_takeWhile_nil _ hhead]
  rw [List.cons_append]
  simp only [numToken, hc, if_true, hip, hr1]
  split
  · simp at hdot
  · rfl

lemma parseGroup_digits (ds : List Char) (hd : ∀ c ∈ ds, c.isDigit = true) :
    parseGroup ds = (digitsVal ds : ℚ) := by
  simp only [parseGroup, takeWhile_all ds hd, dropWhile_all ds hd]

lemma searchML_of_matchSuffix (l g : List Char) (h : matchSuffixML l = some g) :
    searchML l = some g := by
  cases l with
  | nil => simp [matchSuffixML, numToken] at h
  | cons c cs => simp only [searchML, h]

lemma searchL_of_matchSuffix (l g : List Char) (h : matchSuffixL l = some g) :
    searchL l = some g := by
  cases l with
  | nil => simp [matchSuffixL, numToken] at h
  | cons c cs => simp only [searchL, h]

lemma searchML_none_of (rest : List Char) (hrest : searchML rest = none)
    (hfail : ∀ ds, ds ≠ [] → (∀ c ∈ ds, c.isDigit = true) →
      matchSuffixML (ds ++ rest) = none)
    (ds : List Char) (hd : ∀ c ∈ ds, c.isDigit = true) :
    searchML (ds ++ rest) = none := by
  induction ds with
  | nil => simpa using hrest
  | cons c cs ih =>
    rw [List.cons_append]
    simp only [searchML]
    rw [← List.cons_append, hfail (c :: cs) (by simp) hd]
    exact ih (fun d hdm => hd d (by simp [hdm]))

lemma searchL_none_of (rest : List Char) (hrest : searchL rest = none)
    (hfail : ∀ ds, ds ≠ [] → (∀ c ∈ ds, c.isDigit = true) →
      matchSuffixL (ds ++ rest) = none)
    (ds : List Char) (hd : ∀ c ∈ ds, c.isDigit = true) :
    searchL (ds ++ rest) = none := by
  induction ds with
  | nil => simpa using hrest
  | cons c cs ih =>
    rw [List.cons_append]
    simp only [searchL]
    rw [← List.cons_append, hfail (c :: cs) (by simp) hd]
    exact ih (fun d hdm => hd d (by simp [hdm]))

lemma extract_size_ml_of_searchML (ds rest : List Char)
    (hd : ∀ c ∈ ds, c.isDigit = true) (hm : searchML (ds ++ rest) = some ds) :
    extract_size_ml ⟨ds ++ rest⟩ = some ((digitsVal ds : ℚ)) := by
  have hdata : (String.mk (ds ++ rest)).data = ds ++ rest := rfl
  unfold extract_size_ml
  rw [hdata, hm]
  show some (parseGroup ds) = some ((digitsVal ds : ℚ))
  rw [parseGroup_digits ds hd]

lemma extract_size_ml_of_none (s : String) (h1 : searchML s.data = none)
    (h2 : searchL s.data = none) : extract_size_ml s = none := by
  unfold extract_size_ml
  rw [h1, h2]

/-! ### Claim theorems -/

/-- Claim C1: for every description and every configured vague-term list,
`flag_description` returns `"Too short"` when the description's length is
below 10 characters (so the length check takes priority: the short vague
description `"misc"` is still `"Too short"`); otherwise it returns
`"Unclear or Generic"` exactly when the lowercased description contains a
configured term as a substring, and `None` otherwise; in particular
`"ok"` yields `"Too short"` and
`"Acme Snacks Original Chips 12oz Family Pack"` yields `None` under the
default term list. -/
theorem c1_flag_description_rules (desc : String) (terms : List String) :
    (desc.data.length < 10 → flag_description desc terms = some "Too short") ∧
    (10 ≤ desc.data.length →
      ((terms.any fun t => occursIn t.data (lowerL desc.data)) = true →
        flag_description desc terms = some "Unclear or Generic") ∧
      ((terms.any fun t => occursIn t.data (lowerL desc.data)) = false →
        flag_description desc terms = none)) ∧
    flag_description "ok" DEFAULT_UNCLEAR_TERMS = some "Too short" ∧
    flag_description "misc" DEFAULT_UNCLEAR_TERMS = some "Too short" ∧
    flag_description "Acme Snacks Original Chips 12oz Family Pack"
      DEFAULT_UNCLEAR_TERMS = none := by
  refine ⟨fun h => ?_, fun h10 => ⟨fun ht => ?_, fun ht => ?_⟩, by decide, by decide, by decide⟩
  · simp only [flag_description, if_pos h]
  · simp only [flag_description, if_neg (by omega : ¬ desc.data.length < 10), ht, if_true]
  · simp only [flag_description, if_neg (by omega : ¬ desc.data.length < 10), ht,
      Bool.false_eq_true, if_false]

/-- Witness for C1 at the concrete description `"ok"`. -/
theorem c1_witness : flag_description "ok" DEFAULT_UNCLEAR_TERMS = some "Too short" :=
  (c1_flag_description_rules "ok" DEFAULT_UNCLEAR_TERMS).1 (by decide)

/-- Claim C2: size extraction returns the parsed millilitre number when
the millilitre pattern matches, else 1000 times the parsed litre number
when the litre pattern matches, else `None`; concretely
`"750 ml" ↦ 750`, `"1.5 L" ↦ 1500`, `"1.5L" ↦ 1500`,
`"no size here" ↦ None`, and the derived `flag_size` is
`"No size found"` on `None`, `"Too small"` below 750 and `None` at
exactly 750. -/
theorem c2_size_extraction :
    (∀ s g, searchML s.data = some g → extract_size_ml s = some (parseGroup g)) ∧
    (∀ s g, searchML s.data = none → searchL s.data = some g →
      extract_size_ml s = some (parseGroup g * 1000)) ∧
    (∀ s, searchML s.data = none → searchL s.data = none →
      extract_size_ml s = none) ∧
    extract_size_ml "750 ml" = some 750 ∧
    extract_size_ml "1.5 L" = some 1500 ∧
    extract_size_ml "1.5L" = some 1500 ∧
    extract_size_ml "no size here" = none ∧
    flag_size (extract_size_ml "no size here") = some "No size found" ∧
    flag_size (extract_size_ml "500 ml") = some "Too small" ∧
    flag_size (extract_size_ml "750 ml") = none := by
  refine ⟨?_, ?_, ?_, by decide, ?_, ?_, by decide, by decide, by decide, by decide⟩
  · intro s g h; unfold extract_size_ml; rw [h]
  · intro s g h1 h2; unfold extract_size_ml; rw [h1, h2]
  · intro s h1 h2; exact extract_size_ml_of_none s h1 h2
  · have h : parseGroup ['1', '.', '5'] = 1 + 5 / 10 ^ 1 := by rfl
    show some (parseGroup ['1', '.', '5'] * 1000) = some 1500
    rw [h]; norm_num
  · have h : parseGroup ['1', '.', '5'] = 1 + 5 / 10 ^ 1 := by rfl
    show some (parseGroup ['1', '.', '5'] * 1000) = some 1500
    rw [h]; norm_num

/-- Witness for C2 at the concrete description `"750 ml"`. -/
theorem c2_witness : extract_size_ml "750 ml" = some (parseGroup ['7', '5', '0']) :=
  c2_size_extraction.1 "750 ml" ['7', '5', '0'] (by decide)

/-- Counterexample to C3 as stated: the `m` of the millilitre pattern
`(\d+(\.\d+)?)\s?m[lL]\b` is lowercase only, so the casings `ML` and
`Ml` are not recognized — `extract_size_ml "750 ML"` is `None`, not
`750` as the claim requires. -/
theorem c3_counterexample :
    extract_size_ml "750 ML" = none ∧ extract_size_ml "750 Ml" = none ∧
    extract_size_ml "750 ML" ≠ some 750 := by
  exact ⟨by decide, by decide, by decide⟩

/-- Claim C3 (amended): the millilitre pattern is case-insensitive only
in its final letter: for every digit string, the casings `ml` and `mL`
(with or without a space before the unit) parse to the digit string's
value, while the casings `Ml` and `ML` (uppercase `m`) are matched by
neither the millilitre nor the litre pattern, so extraction yields
`None` on them. -/
theorem c3_ml_unit_casing (ds : List Char) (hne : ds ≠ [])
    (hd : ∀ c ∈ ds, c.isDigit = true) :
    extract_size_ml ⟨ds ++ [' ', 'm', 'l']⟩ = some ((digitsVal ds : ℚ)) ∧
    extract_size_ml ⟨ds ++ [' ', 'm', 'L']⟩ = some ((digitsVal ds : ℚ)) ∧
    extract_size_ml ⟨ds ++ ['m', 'l']⟩ = some ((digitsVal ds : ℚ)) ∧
    extract_size_ml ⟨ds ++ ['m', 'L']⟩ = some ((digitsVal ds : ℚ)) ∧
    extract_size_ml ⟨ds ++ [' ', 'M', 'l']⟩ = none ∧
    extract_size_ml ⟨ds ++ [' ', 'M', 'L']⟩ = none ∧
    extract_size_ml ⟨ds ++ ['M', 'l']⟩ = none ∧
    extract_size_ml ⟨ds ++ ['M', 'L']⟩ = none := by
  refine ⟨?_, ?_, ?_, ?_, ?_, ?_, ?_, ?_⟩
  · exact extract_size_ml_of_searchML ds _ hd (searchML_of_matchSuffix _ _ (by
      unfold matchSuffixML
      rw [numToken_digits_append ds _ hne hd (by decide) (by decide)]; rfl))
  · exact extract_size_ml_of_searchML ds _ hd (searchML_of_matchSuffix _ _ (by
      unfold matchSuffixML
      rw [numToken_digits_append ds _ hne hd (by decide) (by decide)]; rfl))
  · exact extract_size_ml_of_searchML ds _ hd (searchML_of_matchSuffix _ _ (by
      unfold matchSuffixML
      rw [numToken_digits_append ds _ hne hd (by decide) (by decide)]; rfl))
  · exact extract_size_ml_of_searchML ds _ hd (searchML_of_matchSuffix _ _ (by
      unfold matchSuffixML
      rw [numToken_digits_append ds _ hne hd (by decide) (by decide)]; rfl))
  · exact extract_size_ml_of_none _
      (searchML_none_of [' ', 'M', 'l'] (by decide) (fun ds2 hne2 hd2 => by
        unfold matchSuffixML
        rw [numToken_digits_append ds2 _ hne2 hd2 (by decide) (by decide)]; rfl) ds hd)
      (searchL_none_of [' ', 'M', 'l'] (by decide) (fun ds2 hne2 hd2 => by
        unfold matchSuffixL
        rw [numToken_digits_append ds2 _ hne2 hd2 (by decide) (by decide)]; rfl) ds hd)
  · exact extract_size_ml_of_none _
      (searchML_none_of [' ', 'M', 'L'] (by decide) (fun ds2 hne2 hd2 => by
        unfold matchSuffixML
        rw [numToken_digits_append ds2 _ hne2 hd2 (by decide) (by decide)]; rfl) ds hd)
      (searchL_none_of [' ', 'M', 'L'] (by decide) (fun ds2 hne2 hd2 => by
        unfold matchSuffixL
        rw [numToken_digits_append ds2 _ hne2 hd2 (by decide) (by decide)]; rfl) ds hd)
  · exact extract_size_ml_of_none _
      (searchML_none_of ['M', 'l'] (by decide) (fun ds2 hne2 hd2 => by
        unfold matchSuffixML
        rw [numToken_digits_append ds2 _ hne2 hd2 (by decide) (by decide)]; rfl) ds hd)
      (searchL_none_of ['M', 'l'] (by decide) (fun ds2 hne2 hd2 => by
        unfold matchSuffixL
        rw [numToken_digits_append ds2 _ hne2 hd2 (by decide) (by decide)]; rfl) ds hd)
  · exact extract_size_ml_of_none _
      (searchML_none_of ['M', 'L'] (by decide) (fun ds2 hne2 hd2 => by
        unfold matchSuffixML
        rw [numToken_digits_append ds2 _ hne2 hd2 (by decide) (by decide)]; rfl) ds hd)
      (searchL_none_of ['M', 'L'] (by decide) (fun ds2 hne2 hd2 => by
        unfold matchSuffixL
        rw [numToken_digits_append ds2 _ hne2 hd2 (by decide) (by decide)]; rfl) ds hd)

/-- Witness for C3 (amended) at the digit string `750`. -/
theorem c3_witness :
    extract_size_ml ⟨['7', '5', '0'] ++ [' ', 'm', 'l']⟩ =
      some ((digitsVal ['7', '5', '0'] : ℚ)) :=
  (c3_ml_unit_casing ['7', '5', '0'] (by decide) (by decide)).1

/-- Claim C4: the QA split puts a row in the awarding partition iff its
requirement label, stripped and case-folded, equals
`"unlabeled requirement"`, and every other row in the audience
partition; the partitions are disjoint, together they are a permutation
of the input, and each preserves the input's relative row order
(sublist). -/
theorem c4_awarding_split (rows : List QARow) :
    (∀ r, r ∈ qaAwardingRows rows ↔
      r ∈ rows ∧ caseNormL r.requirementname.data = "unlabeled requirement".data) ∧
    (∀ r, r ∈ qaAudienceRows rows ↔
      r ∈ rows ∧ caseNormL r.requirementname.data ≠ "unlabeled requirement".data) ∧
    (∀ r, r ∈ qaAwardingRows rows → r ∉ qaAudienceRows rows) ∧
    (qaAwardingRows rows ++ qaAudienceRows rows).Perm rows ∧
    (qaAwardingRows rows).Sublist rows ∧
    (qaAudienceRows rows).Sublist rows := by
  have hmem : ∀ r, r ∈ qaAwardingRows rows ↔
      r ∈ rows ∧ caseNormL r.requirementname.data = "unlabeled requirement".data := by
    intro r
    rw [qaAwardingRows, List.mem_filter, isAwarding]
    simp
  have hmem2 : ∀ r, r ∈ qaAudienceRows rows ↔
      r ∈ rows ∧ caseNormL r.requirementname.data ≠ "unlabeled requirement".data := by
    intro r
    rw [qaAudienceRows, List.mem_filter]
    simp [isAwarding]
  refine ⟨hmem, hmem2, ?_, ?_, ?_, ?_⟩
  · intro r h1 h2
    exact ((hmem2 r).mp h2).2 (((hmem r).mp h1).2)
  · exact List.filter_append_perm isAwarding rows
  · rw [qaAwardingRows]; exact List.filter_sublist rows
  · rw [qaAudienceRows]; exact List.filter_sublist rows

/-- Witness for C4: a row labelled `" Unlabeled REQUIREMENT "` (odd
casing and padding) lands in the awarding partition of a concrete
two-row file. -/
theorem c4_witness :
    (⟨"1", "d", " Unlabeled REQUIREMENT ", ""⟩ : QARow) ∈
      qaAwardingRows [⟨"1", "d", " Unlabeled REQUIREMENT ", ""⟩,
        ⟨"2", "e", "Something Else", ""⟩] :=
  ((c4_awarding_split _).1 _).mpr ⟨by decide, by decide⟩

/-- Counterexample to C5 as stated: the QA path applies
`_clean_barcode_series` with no zero-fill, so the canonical barcode of
the raw token `"x5"` is `"5"`, of length 1, below the claimed minimum
width 12; the full QA pipeline output exhibits it. -/
theorem c5_counterexample :
    qaCanonBarcode "x5" = "5" ∧ ¬ 12 ≤ (qaCanonBarcode "x5").data.length ∧
    (normalize_qa_and_split true false
        [⟨"x5", "desc here", "Unlabeled Requirement", ""⟩]).1 =
      [⟨"5", "", "desc here"⟩] := by
  exact ⟨by decide, by decide, by decide⟩

/-- Claim C5 (amended): for every raw token containing at least one
digit, the cleaned barcode is all digits of length 1 to 14 (matches
`^\d{1,14}$`); the IC pipeline's extra zero-fill step additionally
brings the length into the range 12 to 14.  (The QA pipeline has no
zero-fill, so only the first part applies to it.) -/
theorem c5_clean_shape (s : String) (h : ∃ c ∈ s.data, c.isDigit = true) :
    ((cleanBarcode s).data.all Char.isDigit = true ∧
      1 ≤ (cleanBarcode s).data.length ∧ (cleanBarcode s).data.length ≤ 14) ∧
    ((icCanonBarcode s).data.all Char.isDigit = true ∧
      12 ≤ (icCanonBarcode s).data.length ∧ (icCanonBarcode s).data.length ≤ 14) := by
  have h1 := cleanBarcodeL_shape s.data
  have h2 := cleanBarcodeL_pos s.data h
  have h3 := icCanonBarcodeL_shape s.data
  exact ⟨⟨List.all_eq_true.mpr h1.2, h2, h1.1⟩,
    ⟨List.all_eq_true.mpr h3.2.2, h3.1, h3.2.1⟩⟩

/-- Witness for C5 (amended) at the raw token `"x5"`. -/
theorem c5_witness :
    ((cleanBarcode "x5").data.all Char.isDigit = true ∧
      1 ≤ (cleanBarcode "x5").data.length ∧ (cleanBarcode "x5").data.length ≤ 14) ∧
    ((icCanonBarcode "x5").data.all Char.isDigit = true ∧
      12 ≤ (icCanonBarcode "x5").data.length ∧
      (icCanonBarcode "x5").data.length ≤ 14) :=
  c5_clean_shape "x5" ⟨'5', by decide, by decide⟩

/-- Counterexample to C6 as stated: in the IC pipeline a digit-free
token does not stay empty — the zero-fill of `normalize_ic` line 126
turns the empty cleaned value into `"000000000000"`, which is non-empty
and even passes the `^\d{8,14}$` hygiene test, so the record is not
rejected downstream. -/
theorem c6_counterexample :
    icCanonBarcode "abc" = "000000000000" ∧ icCanonBarcode "abc" ≠ "" ∧
    validBarcode (icCanonBarcode "abc") = true := by
  exact ⟨by decide, by decide, by decide⟩

/-- Claim C6 (amended): cleaning is total and never raises; for every
digit-free raw token `_clean_barcode_series` yields the empty string,
which in the QA pipeline stays the canonical value and is rejected by
the `^\d{8,14}$` hygiene check (a warning, not a hard failure), while
the IC pipeline's zero-fill maps it to `"000000000000"`, which passes
that check. -/
theorem c6_no_digit_behavior (s : String) (h : ∀ c ∈ s.data, c.isDigit = false) :
    cleanBarcode s = "" ∧ qaCanonBarcode s = "" ∧
    validBarcode (qaCanonBarcode s) = false ∧
    icCanonBarcode s = "000000000000" ∧
    validBarcode (icCanonBarcode s) = true := by
  have hrun : firstDigitRunL s.data = none := firstDigitRunL_none s.data h
  have hnil : cleanBarcodeL s.data = [] := by
    unfold cleanBarcodeL; rw [hrun]
  have hclean : cleanBarcode s = "" := by
    show String.mk (cleanBarcodeL s.data) = ""
    rw [hnil]
  have hic : icCanonBarcode s = "000000000000" := by
    show String.mk (rightTakeL 14 (zfillL 12 (cleanBarcodeL s.data))) = "000000000000"
    rw [hnil]; decide
  refine ⟨hclean, hclean, ?_, hic, ?_⟩
  · rw [qaCanonBarcode, hclean]; decide
  · rw [hic]; decide

/-- Witness for C6 (amended) at the raw token `"abc"`. -/
theorem c6_witness :
    cleanBarcode "abc" = "" ∧ qaCanonBarcode "abc" = "" ∧
    validBarcode (qaCanonBarcode "abc") = false ∧
    icCanonBarcode "abc" = "000000000000" ∧
    validBarcode (icCanonBarcode "abc") = true :=
  c6_no_digit_behavior "abc" (by decide)

/-- Claim C7: a batch of 5 rows among which 2 share a barcode and 1 is
blank yields exactly 3 unique, non-empty canonical records forwarded to
the catalog lookup stage (that stage modelled from the spec, see
`forward_to_lookup`). -/
theorem c7_batch_dedup :
    forward_to_lookup
        (["012345678905", "012345678905", "", "036000291452", "04963406"].map
          cleanBarcode) =
      ["012345678905", "036000291452", "04963406"] ∧
    (forward_to_lookup
        (["012345678905", "012345678905", "", "036000291452", "04963406"].map
          cleanBarcode)).length = 3 ∧
    (forward_to_lookup
        (["012345678905", "012345678905", "", "036000291452", "04963406"].map
          cleanBarcode)).Nodup ∧
    ∀ b ∈ forward_to_lookup
        (["012345678905", "012345678905", "", "036000291452", "04963406"].map
          cleanBarcode), b ≠ "" := by
  exact ⟨by decide, by decide, by decide, by decide⟩

/-- Claim C8: `auto_pick_column` returns exactly the first header (in
original order) whose normalized form lies in the alias set; manual
mapping is needed iff the barcode pick or the description pick is
missing — the brand pick is irrelevant; and the headers
`["UPC", "Brand Name", "Product Description"]` resolve automatically to
(barcode, brand, description). -/
theorem c8_column_resolution :
    (∀ cols al c, auto_pick_column cols al = some c ↔
      al.contains c = true ∧
        ∃ pre post, cols = pre ++ c :: post ∧ ∀ d ∈ pre, al.contains d = false) ∧
    (∀ headers, (resolve_ic_columns headers).needs_manual = false ↔
      ((resolve_ic_columns headers).barcode_col.isSome = true ∧
        (resolve_ic_columns headers).description_col.isSome = true)) ∧
    resolve_ic_columns ["UPC", "Brand Name", "Product Description"] =
      ⟨some "upc", some "brand name", some "product description", false⟩ := by
  refine ⟨?_, ?_, by decide⟩
  · intro cols al c
    rw [auto_pick_column, List.find?_eq_some]
    simp
  · intro headers
    simp only [resolve_ic_columns]
    cases auto_pick_column (headers.map normHeader) ALIAS_BARCODE <;>
      cases auto_pick_column (headers.map normHeader) ALIAS_DESCRIPTION <;> simp

/-- Witness for C8: `"upc"` is picked first from a concrete header
list. -/
theorem c8_witness :
    auto_pick_column ["upc", "brand name"] ALIAS_BARCODE = some "upc" :=
  (c8_column_resolution.1 ["upc", "brand name"] ALIAS_BARCODE "upc").mpr
    ⟨by decide, [], ["brand name"], rfl, by decide⟩

/-- Claim C9: the IC cleaning composition (first-digit-run extraction,
rightmost-14 truncation, zero-fill to width 12) is idempotent — here
proved for every input string, which covers the claim's
already-canonical inputs. -/
theorem c9_clean_idempotent (s : String) :
    icCanonBarcode (icCanonBarcode s) = icCanonBarcode s := by
  obtain ⟨h12, h14, hdig⟩ := icCanonBarcodeL_shape s.data
  show String.mk (icCanonBarcodeL (String.mk (icCanonBarcodeL s.data)).data) =
    String.mk (icCanonBarcodeL s.data)
  have hdata : (String.mk (icCanonBarcodeL s.data)).data = icCanonBarcodeL s.data := rfl
  rw [hdata, icCanonBarcodeL_of_canonical _ hdig h12 h14]

/-- Claim C10: with size-appending enabled and a size column present,
the canonical QA description is the trimmed description alone when the
trimmed size is empty or already occurs case-insensitively inside it,
and otherwise the trimmed description, `" - "`, and the trimmed size
concatenated; with appending disabled (or no size column) it is always
the trimmed description. -/
theorem c10_qa_description (desc size : String) :
    ((stripL size.data).isEmpty = true ∨
        occursIn (lowerL (stripL size.data)) (lowerL (stripL desc.data)) = true →
      qaDescription true true desc size = ⟨stripL desc.data⟩) ∧
    ((stripL size.data).isEmpty = false →
      occursIn (lowerL (stripL size.data)) (lowerL (stripL desc.data)) = false →
      qaDescription true true desc size =
        ⟨stripL desc.data ++ " - ".data ++ stripL size.data⟩) ∧
    (∀ append_flag hasSize : Bool, (append_flag && hasSize) = false →
      qaDescription append_flag hasSize desc size = ⟨stripL desc.data⟩) ∧
    qaDescription true true "Cola Drink" "750 ml" = "Cola Drink - 750 ml" ∧
    extract_size_ml (qaDescription true true "Cola Drink" "750 ml") = some 750 ∧
    qaDescription true true "Cola Drink 750 ML" "750 ml" = "Cola Drink 750 ML" := by
  refine ⟨fun h => ?_, fun h1 h2 => ?_, fun af hs hf => ?_, by decide, by decide, by decide⟩
  · simp only [qaDescription, Bool.and_self, if_true]
    rcases h with h | h <;> simp [h]
  · simp only [qaDescription, Bool.and_self, if_true, h1, h2]
    simp
  · simp only [qaDescription, hf, Bool.false_eq_true, if_false]

/-- Witness for C10: appending happens on a concrete description/size
pair whose size is new. -/
theorem c10_witness :
    qaDescription true true " Cola Drink " "750 ml" =
      ⟨stripL " Cola Drink ".data ++ " - ".data ++ stripL "750 ml".data⟩ :=
  (c10_qa_description " Cola Drink " "750 ml").2.1 (by decide) (by decide)

end AwardWizard
